import Mathlib

/-!
Shallow embedding of `build_subset` from
`src/nemo_curator_semantic_dedup/laion_prepare.py`.

A parquet shard is modelled as a `ShardFile α`: its schema's column-name
list and its rows (rows are abstract values of type `α`; the engine never
inspects row contents, only counts and slices them).  `pq.read_schema p` /
`pq.read_table p` are modelled by a filesystem function `fs : String →
ShardFile α`.  The `ParquetWriter` is a `Writer α`: the schema it was
created with, the batches appended so far, and whether `close()` was
called.  `build_subset` returns a `BuildResult α` recording the raised
error (if any), the final writer state, the row counter, which paths had
their schema read (in order), and the final console message on normal
return.

Python `str.lower`/`str.upper` are modelled per-character for the ASCII
range (all strings in the program and spec are ASCII); Python string
comparison is code-point lexicographic, modelled by `charListLe` on
`String.data`.
-/

namespace LaionPrepare

/-- One source parquet file: schema names and rows. -/
structure ShardFile (α : Type) where
  names : List String
  rows : List α
deriving DecidableEq

/-- A table as returned by `pq.read_table(path, columns=resolved_cols)`:
the resolved column names and the (projected) rows. -/
structure Table (α : Type) where
  cols : List String
  rows : List α
deriving DecidableEq

/-- The state of a `pq.ParquetWriter`: the schema it was opened with, the
batches written so far, and whether it has been closed. -/
structure Writer (α : Type) where
  schema : List String
  batches : List (Table α)
  closed : Bool
deriving DecidableEq

/-- The payload of the `ValueError` raised on resolution failure:
`f"None of requested columns {columns} found in {path}; available: {sorted(available)}"`. -/
structure ResolutionError where
  requested : List String
  path : String
  available : List String
deriving DecidableEq

/-- Observable outcome of a `build_subset` call. -/
structure BuildResult (α : Type) where
  error : Option ResolutionError
  writer : Option (Writer α)
  rows_written : Nat
  readPaths : List String
  finalMsg : Option String
deriving DecidableEq

/-- ASCII-range model of Python `str.lower()`. -/
def strLower (s : String) : String := String.mk (s.data.map Char.toLower)

/-- ASCII-range model of Python `str.upper()`. -/
def strUpper (s : String) : String := String.mk (s.data.map Char.toUpper)

/-- Code-point lexicographic `≤` on character lists: Python's string
comparison. -/
def charListLe : List Char → List Char → Bool
  | [], _ => true
  | _ :: _, [] => false
  | a :: as, b :: bs => if a < b then true else if b < a then false else charListLe as bs

/-- Python's `≤` on strings (code-point lexicographic). -/
def PathLe (s t : String) : Prop := charListLe s.data t.data = true

instance : DecidableRel PathLe := fun s t => decEq (charListLe s.data t.data) true

/-- `sorted(shard_paths)`: Python's stable sort by `≤`; on a totally and
antisymmetrically ordered type any sort yields the same list, so
insertion sort is a faithful model. -/
def sortPaths (paths : List String) : List String := List.insertionSort PathLe paths

/-- `sorted(set(names))` as it appears in the error message. -/
def sortedSet (names : List String) : List String :=
  List.insertionSort PathLe names.dedup

/-- The column-resolution loop of `build_subset` (lines 57-68): for each
requested `col`, exact match first, then lowercase, then the
`TEXT -> caption` special case, else the column is dropped. -/
def resolveCols (columns : List String) (available : List String) : List String :=
  columns.foldl
    (fun resolved_cols col =>
      if col ∈ available then resolved_cols ++ [col]
      else if strLower col ∈ available then resolved_cols ++ [strLower col]
      else if strUpper col = "TEXT" ∧ "caption" ∈ available then resolved_cols ++ ["caption"]
      else resolved_cols)
    []

/-- Lines 73-75: the rows of `pq.read_table(path, columns=resolved_cols)`,
sliced to the remaining budget when `max_rows` is truthy and this shard
would push the total past it. -/
def tableRowsOf {α : Type} (fs : String → ShardFile α) (max_rows rows_written : Nat)
    (path : String) : List α :=
  if max_rows ≠ 0 ∧ rows_written + (fs path).rows.length > max_rows then
    (fs path).rows.take (max_rows - rows_written)
  else (fs path).rows

/-- Lines 77-81: open the writer on `table.schema` if this is the first
write, then `writer.write_table(table)`. -/
def appendBatch {α : Type} (writer : Option (Writer α)) (table : Table α) : Writer α :=
  match writer with
  | none => { schema := table.cols, batches := [table], closed := false }
  | some w => { w with batches := w.batches ++ [table] }

/-- The `for path in sorted(shard_paths)` loop of `build_subset`
(lines 52-91), as a recursion over the remaining sorted paths carrying
the writer, the row counter and the list of paths whose schema has been
read so far.  The `[]` case is the code after the loop (close the writer
if it was opened, print the final message). -/
def buildLoop {α : Type} (fs : String → ShardFile α) (out_parquet : String)
    (max_rows : Nat) (columns : List String) (paths : List String)
    (writer : Option (Writer α)) (rows_written : Nat) (readAcc : List String) :
    BuildResult α :=
  match paths with
  | [] =>
    match writer with
    | some w =>
      { error := none, writer := some { w with closed := true },
        rows_written := rows_written, readPaths := readAcc,
        finalMsg := some ("Final output: " ++ out_parquet ++ ", rows: " ++ toString rows_written) }
    | none =>
      { error := none, writer := none, rows_written := rows_written,
        readPaths := readAcc, finalMsg := some "No data written (no shards?)" }
  | path :: rest =>
    if resolveCols columns (fs path).names = [] then
      { error := some { requested := columns, path := path,
                        available := sortedSet (fs path).names },
        writer := writer, rows_written := rows_written,
        readPaths := readAcc ++ [path], finalMsg := none }
    else
      let table : Table α :=
        { cols := resolveCols columns (fs path).names,
          rows := tableRowsOf fs max_rows rows_written path }
      let w1 := appendBatch writer table
      let rows' := rows_written + (tableRowsOf fs max_rows rows_written path).length
      if max_rows ≠ 0 ∧ rows' ≥ max_rows then
        { error := none, writer := some { w1 with closed := true },
          rows_written := rows', readPaths := readAcc ++ [path],
          finalMsg := some ("Final output: " ++ out_parquet ++ ", rows: " ++ toString rows') }
      else
        buildLoop fs out_parquet max_rows columns rest (some w1) rows' (readAcc ++ [path])

/-- `build_subset(shard_paths, out_parquet, max_rows, columns)`. -/
def build_subset {α : Type} (fs : String → ShardFile α) (shard_paths : List String)
    (out_parquet : String) (max_rows : Nat) (columns : List String) : BuildResult α :=
  buildLoop fs out_parquet max_rows columns (sortPaths shard_paths) none 0 []

/-- The rows of the output file, in order: the concatenation of the
written batches. -/
def outputRows {α : Type} (r : BuildResult α) : List α :=
  match r.writer with
  | some w => (w.batches.map Table.rows).flatten
  | none => []

/-- Total rows over the batches of an optional writer. -/
def wRows {α : Type} (w : Option (Writer α)) : Nat :=
  match w with
  | some w => (w.batches.map (fun t => t.rows.length)).sum
  | none => 0

/-- What one requested column contributes for a given schema (one pass of
the resolution loop body). -/
def resolveOne (col : String) (available : List String) : List String :=
  if col ∈ available then [col]
  else if strLower col ∈ available then [strLower col]
  else if strUpper col = "TEXT" ∧ "caption" ∈ available then ["caption"]
  else []

/-! ### Concrete test fixtures (shards are `ShardFile Nat`, a row is its
index so that output row order is observable) -/

/-- Two shards of 100 rows each, both with columns `URL`,`TEXT`. -/
def fsC1 : String → ShardFile Nat := fun p =>
  if p = "a.parquet" then { names := ["URL", "TEXT"], rows := List.range 100 }
  else { names := ["URL", "TEXT"], rows := (List.range 100).map (fun n => 100 + n) }

/-- Two small shards with rows `[0,1]` and `[2,3]`. -/
def fsAB : String → ShardFile Nat := fun p =>
  if p = "a.parquet" then { names := ["URL", "TEXT"], rows := [0, 1] }
  else { names := ["URL", "TEXT"], rows := [2, 3] }

/-- `a.parquet` resolves `URL`; every other path has only a `height`
column, so a request for `URL` fails resolution there. -/
def fsBad : String → ShardFile Nat := fun p =>
  if p = "a.parquet" then { names := ["URL"], rows := [0, 1] }
  else { names := ["height"], rows := [7] }

/-- Two resolvable 2-row shards followed (in path order) by an
unresolvable one. -/
def fsC8 : String → ShardFile Nat := fun p =>
  if p = "a.parquet" then { names := ["URL"], rows := [0, 1] }
  else if p = "b.parquet" then { names := ["URL"], rows := [2, 3] }
  else { names := ["height"], rows := [9] }

/-- Two shards that resolve the request `["URL"]` to different actual
column names: `URL` in the first, `url` in the second. -/
def fsC9 : String → ShardFile Nat := fun p =>
  if p = "a.parquet" then { names := ["URL"], rows := [0] }
  else { names := ["url"], rows := [1] }

/-- The final writer state of a normal run of `build_subset` over `fsAB`. -/
def wC5 : Writer Nat :=
  { schema := ["URL", "TEXT"],
    batches := [{ cols := ["URL", "TEXT"], rows := [0, 1] },
                { cols := ["URL", "TEXT"], rows := [2, 3] }],
    closed := true }

/-- The final writer state of a run of `build_subset` over `fsC9`. -/
def wC9 : Writer Nat :=
  { schema := ["URL"],
    batches := [{ cols := ["URL"], rows := [0] }, { cols := ["url"], rows := [1] }],
    closed := true }

/-! ### Order lemmas for the path comparison -/

theorem charListLe_cons {a b : Char} {as bs : List Char} :
    charListLe (a :: as) (b :: bs) = true ↔ a < b ∨ (a = b ∧ charListLe as bs = true) := by
  constructor
  · intro h
    simp only [charListLe] at h
    rcases lt_trichotomy a b with hab | hab | hab
    · exact Or.inl hab
    · rw [if_neg (by rw [hab]; exact lt_irrefl b), if_neg (by rw [hab]; exact lt_irrefl b)] at h
      exact Or.inr ⟨hab, h⟩
    · rw [if_neg (lt_asymm hab), if_pos hab] at h
      exact absurd h (by simp)
  · intro h
    simp only [charListLe]
    rcases h with hab | ⟨hab, h⟩
    · rw [if_pos hab]
    · rw [if_neg (by rw [hab]; exact lt_irrefl b), if_neg (by rw [hab]; exact lt_irrefl b)]
      exact h

theorem charListLe_total : ∀ as bs : List Char,
    charListLe as bs = true ∨ charListLe bs as = true
  | [], _ => Or.inl rfl
  | _ :: _, [] => Or.inr rfl
  | a :: as, b :: bs => by
    rcases lt_trichotomy a b with h | h | h
    · exact Or.inl (charListLe_cons.mpr (Or.inl h))
    · rcases charListLe_total as bs with ih | ih
      · exact Or.inl (charListLe_cons.mpr (Or.inr ⟨h, ih⟩))
      · exact Or.inr (charListLe_cons.mpr (Or.inr ⟨h.symm, ih⟩))
    · exact Or.inr (charListLe_cons.mpr (Or.inl h))

theorem charListLe_trans : ∀ as bs cs : List Char,
    charListLe as bs = true → charListLe bs cs = true → charListLe as cs = true
  | [], _, _, _, _ => rfl
  | _ :: _, [], _, h₁, _ => by simp [charListLe] at h₁
  | _ :: _, _ :: _, [], _, h₂ => by simp [charListLe] at h₂
  | a :: as, b :: bs, c :: cs, h₁, h₂ => by
    rcases charListLe_cons.mp h₁ with hab | ⟨hab, h₁'⟩ <;>
      rcases charListLe_cons.mp h₂ with hbc | ⟨hbc, h₂'⟩
    · exact charListLe_cons.mpr (Or.inl (lt_trans hab hbc))
    · exact charListLe_cons.mpr (Or.inl (hbc ▸ hab))
    · exact charListLe_cons.mpr (Or.inl (hab ▸ hbc))
    · exact charListLe_cons.mpr
        (Or.inr ⟨hab.trans hbc, charListLe_trans as bs cs h₁' h₂'⟩)

theorem charListLe_antisymm : ∀ as bs : List Char,
    charListLe as bs = true → charListLe bs as = true → as = bs
  | [], [], _, _ => rfl
  | [], _ :: _, _, h₂ => by simp [charListLe] at h₂
  | _ :: _, [], h₁, _ => by simp [charListLe] at h₁
  | a :: as, b :: bs, h₁, h₂ => by
    rcases charListLe_cons.mp h₁ with hab | ⟨hab, h₁'⟩ <;>
      rcases charListLe_cons.mp h₂ with hba | ⟨hba, h₂'⟩
    · exact absurd hba (lt_asymm hab)
    · exact absurd (hba ▸ hab) (lt_irrefl a)
    · exact absurd (hab ▸ hba) (lt_irrefl b)
    · rw [hab, charListLe_antisymm as bs h₁' h₂']

instance : IsTotal String PathLe := ⟨fun a b => charListLe_total a.data b.data⟩

instance : IsTrans String PathLe :=
  ⟨fun a b c h₁ h₂ => charListLe_trans a.data b.data c.data h₁ h₂⟩

instance : IsAntisymm String PathLe :=
  ⟨fun a b h₁ h₂ => by
    cases a; cases b
    exact congrArg String.mk (charListLe_antisymm _ _ h₁ h₂)⟩

theorem sortPaths_sorted (l : List String) : List.Sorted PathLe (sortPaths l) :=
  List.sorted_insertionSort PathLe l

theorem sortPaths_perm (l : List String) : List.Perm (sortPaths l) l :=
  List.perm_insertionSort PathLe l

theorem sortPaths_eq_of_perm {l₁ l₂ : List String} (h : List.Perm l₁ l₂) :
    sortPaths l₁ = sortPaths l₂ :=
  List.eq_of_perm_of_sorted ((sortPaths_perm l₁).trans (h.trans (sortPaths_perm l₂).symm))
    (sortPaths_sorted l₁) (sortPaths_sorted l₂)

/-! ### Characterization of column resolution -/

theorem resolveCols_acc (columns available acc : List String) :
    columns.foldl
      (fun resolved_cols col =>
        if col ∈ available then resolved_cols ++ [col]
        else if strLower col ∈ available then resolved_cols ++ [strLower col]
        else if strUpper col = "TEXT" ∧ "caption" ∈ available then resolved_cols ++ ["caption"]
        else resolved_cols)
      acc = acc ++ resolveCols columns available := by
  induction columns generalizing acc with
  | nil => simp [resolveCols]
  | cons c cs ih =>
    show List.foldl _ _ cs = acc ++ List.foldl _ _ cs
    rw [ih, ih]
    by_cases h₁ : c ∈ available
    · simp [h₁]
    · by_cases h₂ : strLower c ∈ available
      · simp [h₁, h₂]
      · by_cases h₃ : strUpper c = "TEXT" ∧ "caption" ∈ available
        · simp [h₁, h₂, h₃]
        · simp [h₁, h₂, h₃]

/-! ### Loop invariants -/

theorem tableRowsOf_rows_le {α : Type} (fs : String → ShardFile α) {m r : Nat} (p : String)
    (hm : m ≠ 0) (hr : r < m) : r + (tableRowsOf fs m r p).length ≤ m := by
  unfold tableRowsOf
  split
  · rw [List.length_take]
    calc r + min (m - r) (fs p).rows.length ≤ r + (m - r) :=
          Nat.add_le_add_left (min_le_left _ _) r
      _ = m := Nat.add_sub_cancel' (le_of_lt hr)
  · next h =>
    push_neg at h
    exact h hm

theorem tableRowsOf_zero {α : Type} (fs : String → ShardFile α) (r : Nat) (p : String) :
    tableRowsOf fs 0 r p = (fs p).rows :=
  if_neg (by simp)

theorem appendBatch_closed {α : Type} (writer : Option (Writer α)) (table : Table α)
    (h : ∀ w, writer = some w → w.closed = false) :
    (appendBatch writer table).closed = false := by
  cases writer with
  | none => rfl
  | some w => exact h w rfl

theorem appendBatch_closed_some {α : Type} (writer : Option (Writer α)) (table : Table α)
    (h : ∀ w, writer = some w → w.closed = false) :
    ∀ w', some (appendBatch writer table) = some w' → w'.closed = false := by
  intro w' hw'
  injection hw' with hw'
  rw [← hw']
  exact appendBatch_closed writer table h

theorem wRows_appendBatch {α : Type} (writer : Option (Writer α)) (table : Table α) :
    ((appendBatch writer table).batches.map (fun t => t.rows.length)).sum
      = wRows writer + table.rows.length := by
  cases writer <;> simp [appendBatch, wRows]

theorem appendBatch_schema {α : Type} (writer : Option (Writer α)) (table : Table α)
    (h : ∀ w, writer = some w → ∃ b bs, w.batches = b :: bs ∧ w.schema = b.cols) :
    ∃ b bs, (appendBatch writer table).batches = b :: bs
      ∧ (appendBatch writer table).schema = b.cols := by
  cases writer with
  | none => exact ⟨table, [], rfl, rfl⟩
  | some w =>
    obtain ⟨b, bs, hb, hs⟩ := h w rfl
    exact ⟨b, bs ++ [table], by simp [appendBatch, hb], by simp [appendBatch, hs]⟩

theorem buildLoop_rows_le {α : Type} (fs : String → ShardFile α) (o : String) {m : Nat}
    (c : List String) (hm : m ≠ 0) (ps : List String) :
    ∀ (w : Option (Writer α)) (r : Nat) (acc : List String), r < m →
      (buildLoop fs o m c ps w r acc).rows_written ≤ m := by
  induction ps with
  | nil =>
    intro w r acc hr
    cases w <;> simp only [buildLoop] <;> exact le_of_lt hr
  | cons p rest ih =>
    intro w r acc hr
    simp only [buildLoop]
    by_cases hres : resolveCols c (fs p).names = []
    · rw [if_pos hres]
      exact le_of_lt hr
    · rw [if_neg hres]
      by_cases hbrk : m ≠ 0 ∧ r + (tableRowsOf fs m r p).length ≥ m
      · rw [if_pos hbrk]
        exact tableRowsOf_rows_le fs p hm hr
      · rw [if_neg hbrk]
        push_neg at hbrk
        exact ih _ _ _ (hbrk hm)

theorem buildLoop_readPaths {α : Type} (fs : String → ShardFile α) (o : String) (m : Nat)
    (c : List String) (ps : List String) :
    ∀ (w : Option (Writer α)) (r : Nat) (acc : List String),
      ∃ pre rest, ps = pre ++ rest
        ∧ (buildLoop fs o m c ps w r acc).readPaths = acc ++ pre := by
  induction ps with
  | nil =>
    intro w r acc
    exact ⟨[], [], rfl, by cases w <;> simp [buildLoop]⟩
  | cons p rest ih =>
    intro w r acc
    simp only [buildLoop]
    by_cases hres : resolveCols c (fs p).names = []
    · exact ⟨[p], rest, rfl, by rw [if_pos hres]⟩
    · rw [if_neg hres]
      by_cases hbrk : m ≠ 0 ∧ r + (tableRowsOf fs m r p).length ≥ m
      · exact ⟨[p], rest, rfl, by rw [if_pos hbrk]⟩
      · rw [if_neg hbrk]
        obtain ⟨pre, rest', heq, hrp⟩ :=
          ih (some (appendBatch w { cols := resolveCols c (fs p).names,
                                    rows := tableRowsOf fs m r p }))
            (r + (tableRowsOf fs m r p).length) (acc ++ [p])
        exact ⟨p :: pre, rest', by rw [heq, List.cons_append], by rw [hrp]; simp⟩

theorem buildLoop_error_none {α : Type} (fs : String → ShardFile α) (o : String) (m : Nat)
    (c : List String) (ps : List String) :
    ∀ (w : Option (Writer α)) (r : Nat) (acc : List String),
      (∀ p ∈ ps, resolveCols c (fs p).names ≠ []) →
      (buildLoop fs o m c ps w r acc).error = none := by
  induction ps with
  | nil =>
    intro w r acc _
    cases w <;> simp [buildLoop]
  | cons p rest ih =>
    intro w r acc hall
    simp only [buildLoop]
    rw [if_neg (hall p (List.mem_cons_self p rest))]
    by_cases hbrk : m ≠ 0 ∧ r + (tableRowsOf fs m r p).length ≥ m
    · rw [if_pos hbrk]
    · rw [if_neg hbrk]
      exact ih _ _ _ (fun q hq => hall q (List.mem_cons_of_mem p hq))

theorem buildLoop_error_some {α : Type} (fs : String → ShardFile α) (o : String) (m : Nat)
    (c : List String) (ps : List String) :
    ∀ (w : Option (Writer α)) (r : Nat) (acc : List String) (e : ResolutionError),
      (buildLoop fs o m c ps w r acc).error = some e →
      e.requested = c ∧ e.available = sortedSet (fs e.path).names
        ∧ resolveCols c (fs e.path).names = []
        ∧ ∃ l, (buildLoop fs o m c ps w r acc).readPaths = l ++ [e.path] := by
  induction ps with
  | nil =>
    intro w r acc e h
    cases w <;> simp [buildLoop] at h
  | cons p rest ih =>
    intro w r acc e h
    simp only [buildLoop] at h ⊢
    by_cases hres : resolveCols c (fs p).names = []
    · rw [if_pos hres] at h ⊢
      injection h with h
      subst h
      exact ⟨rfl, rfl, hres, acc, rfl⟩
    · rw [if_neg hres] at h ⊢
      by_cases hbrk : m ≠ 0 ∧ r + (tableRowsOf fs m r p).length ≥ m
      · rw [if_pos hbrk] at h
        cases h
      · rw [if_neg hbrk] at h ⊢
        exact ih _ _ _ e h

theorem buildLoop_resolve_of_error_none {α : Type} (fs : String → ShardFile α) (o : String)
    (m : Nat) (c : List String) (ps : List String) :
    ∀ (w : Option (Writer α)) (r : Nat) (acc : List String),
      (∀ p ∈ acc, resolveCols c (fs p).names ≠ []) →
      (buildLoop fs o m c ps w r acc).error = none →
      ∀ p ∈ (buildLoop fs o m c ps w r acc).readPaths, resolveCols c (fs p).names ≠ [] := by
  induction ps with
  | nil =>
    intro w r acc hacc _
    cases w <;> simpa [buildLoop] using hacc
  | cons p rest ih =>
    intro w r acc hacc herr
    simp only [buildLoop] at herr ⊢
    by_cases hres : resolveCols c (fs p).names = []
    · rw [if_pos hres] at herr
      cases herr
    · rw [if_neg hres] at herr ⊢
      have hacc' : ∀ q ∈ acc ++ [p], resolveCols c (fs q).names ≠ [] := by
        intro q hq
        rcases List.mem_append.mp hq with hq | hq
        · exact hacc q hq
        · rw [List.mem_singleton.mp hq]
          exact hres
      by_cases hbrk : m ≠ 0 ∧ r + (tableRowsOf fs m r p).length ≥ m
      · rw [if_pos hbrk] at herr ⊢
        exact hacc'
      · rw [if_neg hbrk] at herr ⊢
        exact ih _ _ _ hacc' herr

theorem buildLoop_writer_of_resolve {α : Type} (fs : String → ShardFile α) (o : String)
    (m : Nat) (c : List String) (ps : List String) :
    ∀ (w : Option (Writer α)) (r : Nat) (acc : List String),
      ((∃ p ∈ acc, resolveCols c (fs p).names ≠ []) → w.isSome = true) →
      (∃ p ∈ (buildLoop fs o m c ps w r acc).readPaths, resolveCols c (fs p).names ≠ []) →
      (buildLoop fs o m c ps w r acc).writer.isSome = true := by
  induction ps with
  | nil =>
    intro w r acc hinv hex
    cases w with
    | none => simp only [buildLoop] at hex ⊢; exact hinv hex
    | some w' => simp [buildLoop]
  | cons p rest ih =>
    intro w r acc hinv hex
    simp only [buildLoop] at hex ⊢
    by_cases hres : resolveCols c (fs p).names = []
    · rw [if_pos hres] at hex ⊢
      refine hinv ?_
      obtain ⟨q, hq, hqres⟩ := hex
      rcases List.mem_append.mp hq with hq | hq
      · exact ⟨q, hq, hqres⟩
      · rw [List.mem_singleton.mp hq] at hqres
        exact absurd hres hqres
    · rw [if_neg hres] at hex ⊢
      by_cases hbrk : m ≠ 0 ∧ r + (tableRowsOf fs m r p).length ≥ m
      · rw [if_pos hbrk]
        rfl
      · rw [if_neg hbrk] at hex ⊢
        exact ih _ _ _ (fun _ => rfl) hex

theorem buildLoop_writer_cause {α : Type} (fs : String → ShardFile α) (o : String)
    (m : Nat) (c : List String) (ps : List String) :
    ∀ (w : Option (Writer α)) (r : Nat) (acc : List String),
      (buildLoop fs o m c ps w r acc).writer.isSome = true →
      w.isSome = true ∨ ∃ p ∈ (buildLoop fs o m c ps w r acc).readPaths,
        resolveCols c (fs p).names ≠ [] := by
  induction ps with
  | nil =>
    intro w r acc h
    cases w with
    | none => simp [buildLoop] at h
    | some w' => exact Or.inl rfl
  | cons p rest ih =>
    intro w r acc h
    simp only [buildLoop] at h ⊢
    by_cases hres : resolveCols c (fs p).names = []
    · rw [if_pos hres] at h ⊢
      exact Or.inl h
    · rw [if_neg hres] at h ⊢
      by_cases hbrk : m ≠ 0 ∧ r + (tableRowsOf fs m r p).length ≥ m
      · rw [if_pos hbrk]
        exact Or.inr ⟨p, by simp, hres⟩
      · rw [if_neg hbrk]
        refine Or.inr ⟨p, ?_, hres⟩
        obtain ⟨pre, rest', _, hrp⟩ :=
          buildLoop_readPaths fs o m c rest
            (some (appendBatch w { cols := resolveCols c (fs p).names,
                                   rows := tableRowsOf fs m r p }))
            (r + (tableRowsOf fs m r p).length) (acc ++ [p])
        rw [hrp]
        simp

theorem buildLoop_closed {α : Type} (fs : String → ShardFile α) (o : String) (m : Nat)
    (c : List String) (ps : List String) :
    ∀ (w : Option (Writer α)) (r : Nat) (acc : List String),
      (∀ w', w = some w' → w'.closed = false) →
      (∀ w', (buildLoop fs o m c ps w r acc).error = none →
        (buildLoop fs o m c ps w r acc).writer = some w' → w'.closed = true) ∧
      (∀ w', (buildLoop fs o m c ps w r acc).error ≠ none →
        (buildLoop fs o m c ps w r acc).writer = some w' → w'.closed = false) := by
  induction ps with
  | nil =>
    intro w r acc hw
    cases w with
    | none =>
      refine ⟨fun w' _ h => ?_, fun w' herr _ => ?_⟩
      · simp [buildLoop] at h
      · simp [buildLoop] at herr
    | some w0 =>
      refine ⟨fun w' _ h => ?_, fun w' herr _ => ?_⟩
      · simp only [buildLoop, Option.some.injEq] at h
        rw [← h]
      · simp [buildLoop] at herr
  | cons p rest ih =>
    intro w r acc hw
    by_cases hres : resolveCols c (fs p).names = []
    · refine ⟨fun w' herr _ => ?_, fun w' _ hwr => ?_⟩
      · simp only [buildLoop, if_pos hres] at herr
        cases herr
      · simp only [buildLoop, if_pos hres] at hwr
        exact hw w' hwr
    · by_cases hbrk : m ≠ 0 ∧ r + (tableRowsOf fs m r p).length ≥ m
      · refine ⟨fun w' _ hwr => ?_, fun w' herr _ => ?_⟩
        · simp only [buildLoop, if_neg hres, if_pos hbrk, Option.some.injEq] at hwr
          rw [← hwr]
        · simp only [buildLoop, if_neg hres, if_pos hbrk] at herr
          exact absurd rfl herr
      · constructor
        · intro w' herr hwr
          simp only [buildLoop] at herr hwr
          rw [if_neg hres, if_neg hbrk] at herr hwr
          exact (ih _ _ _ (appendBatch_closed_some w _ hw)).1 w' herr hwr
        · intro w' herr hwr
          simp only [buildLoop] at herr hwr
          rw [if_neg hres, if_neg hbrk] at herr hwr
          exact (ih _ _ _ (appendBatch_closed_some w _ hw)).2 w' herr hwr

theorem buildLoop_schema {α : Type} (fs : String → ShardFile α) (o : String) (m : Nat)
    (c : List String) (ps : List String) :
    ∀ (w : Option (Writer α)) (r : Nat) (acc : List String),
      (∀ w', w = some w' → ∃ b bs, w'.batches = b :: bs ∧ w'.schema = b.cols) →
      ∀ w', (buildLoop fs o m c ps w r acc).writer = some w' →
        ∃ b bs, w'.batches = b :: bs ∧ w'.schema = b.cols := by
  induction ps with
  | nil =>
    intro w r acc hw w' hwr
    cases w with
    | none => simp [buildLoop] at hwr
    | some w0 =>
      simp only [buildLoop, Option.some.injEq] at hwr
      obtain ⟨b, bs, hb, hs⟩ := hw w0 rfl
      exact ⟨b, bs, by rw [← hwr]; exact hb, by rw [← hwr]; exact hs⟩
  | cons p rest ih =>
    intro w r acc hw w' hwr
    simp only [buildLoop] at hwr
    by_cases hres : resolveCols c (fs p).names = []
    · rw [if_pos hres] at hwr
      exact hw w' hwr
    · rw [if_neg hres] at hwr
      by_cases hbrk : m ≠ 0 ∧ r + (tableRowsOf fs m r p).length ≥ m
      · rw [if_pos hbrk] at hwr
        injection hwr with hwr
        obtain ⟨b, bs, hb, hs⟩ := appendBatch_schema w _ hw
        exact ⟨b, bs, by rw [← hwr]; exact hb, by rw [← hwr]; exact hs⟩
      · rw [if_neg hbrk] at hwr
        refine ih _ _ _ ?_ w' hwr
        intro w'' hw''
        injection hw'' with hw''
        rw [← hw'']
        exact appendBatch_schema w _ hw

theorem buildLoop_wRows {α : Type} (fs : String → ShardFile α) (o : String) (m : Nat)
    (c : List String) (ps : List String) :
    ∀ (w : Option (Writer α)) (r : Nat) (acc : List String), wRows w = r →
      wRows (buildLoop fs o m c ps w r acc).writer
        = (buildLoop fs o m c ps w r acc).rows_written := by
  induction ps with
  | nil =>
    intro w r acc hw
    cases w with
    | none => simpa [buildLoop, wRows] using hw
    | some w0 => simpa [buildLoop, wRows] using hw
  | cons p rest ih =>
    intro w r acc hw
    simp only [buildLoop]
    by_cases hres : resolveCols c (fs p).names = []
    · rw [if_pos hres]
      exact hw
    · rw [if_neg hres]
      by_cases hbrk : m ≠ 0 ∧ r + (tableRowsOf fs m r p).length ≥ m
      · rw [if_pos hbrk]
        show (((appendBatch w _).batches).map _).sum = _
        rw [wRows_appendBatch, hw]
      · rw [if_neg hbrk]
        refine ih _ _ _ ?_
        show (((appendBatch w _).batches).map _).sum = _
        rw [wRows_appendBatch, hw]

theorem outputRows_length {α : Type} (r : BuildResult α) :
    (outputRows r).length = wRows r.writer := by
  cases h : r.writer with
  | none => simp [outputRows, wRows, h]
  | some w =>
    simp only [outputRows, wRows, h, List.length_flatten, List.map_map]
    rfl

theorem buildLoop_complete {α : Type} (fs : String → ShardFile α) (o : String) (m : Nat)
    (c : List String) (ps : List String) :
    ∀ (w : Option (Writer α)) (r : Nat) (acc : List String),
      (buildLoop fs o m c ps w r acc).error = none →
      (m = 0 ∨ (buildLoop fs o m c ps w r acc).rows_written < m) →
      (buildLoop fs o m c ps w r acc).readPaths = acc ++ ps := by
  induction ps with
  | nil =>
    intro w r acc _ _
    cases w <;> simp [buildLoop]
  | cons p rest ih =>
    intro w r acc herr hlt
    simp only [buildLoop] at herr hlt ⊢
    by_cases hres : resolveCols c (fs p).names = []
    · rw [if_pos hres] at herr
      cases herr
    · rw [if_neg hres] at herr hlt ⊢
      by_cases hbrk : m ≠ 0 ∧ r + (tableRowsOf fs m r p).length ≥ m
      · rw [if_pos hbrk] at hlt
        rcases hlt with h0 | hlt
        · exact absurd h0 hbrk.1
        · exact absurd hbrk.2 (not_le_of_lt hlt)
      · rw [if_neg hbrk] at herr hlt ⊢
        rw [ih _ _ _ herr hlt]
        simp

theorem buildLoop_unbounded {α : Type} (fs : String → ShardFile α) (o : String)
    (c : List String) (ps : List String) :
    ∀ (w : Option (Writer α)) (r : Nat) (acc : List String),
      (∀ p ∈ ps, resolveCols c (fs p).names ≠ []) →
      (buildLoop fs o 0 c ps w r acc).rows_written
        = r + (ps.map (fun p => (fs p).rows.length)).sum := by
  induction ps with
  | nil =>
    intro w r acc _
    cases w <;> simp [buildLoop]
  | cons p rest ih =>
    intro w r acc hall
    simp only [buildLoop]
    rw [if_neg (hall p (List.mem_cons_self p rest))]
    rw [if_neg (by simp : ¬((0 : Nat) ≠ 0 ∧ r + (tableRowsOf fs 0 r p).length ≥ 0))]
    rw [ih _ _ _ (fun q hq => hall q (List.mem_cons_of_mem p hq))]
    rw [tableRowsOf_zero]
    simp [Nat.add_assoc]

theorem resolveCols_cons (c : String) (cs available : List String) :
    resolveCols (c :: cs) available = resolveOne c available ++ resolveCols cs available := by
  show List.foldl _ _ cs = _
  rw [resolveCols_acc]
  by_cases h₁ : c ∈ available
  · simp [resolveOne, h₁]
  · by_cases h₂ : strLower c ∈ available
    · simp [resolveOne, h₁, h₂]
    · by_cases h₃ : strUpper c = "TEXT" ∧ "caption" ∈ available
      · simp [resolveOne, h₁, h₂, h₃]
      · simp [resolveOne, h₁, h₂, h₃]

/-! ### The claims -/

/-- C1: with a positive `max_rows`, the total number of rows written never
exceeds `max_rows`; a shard that would overshoot is truncated (sliced from
its start) rather than dropped: for two shards of 100 rows each and
`max_rows = 150`, the output is all 100 rows of the first path-sorted
shard followed by exactly the first 50 rows of the second. -/
theorem claim_C1 :
    (∀ (α : Type) (fs : String → ShardFile α) (shard_paths : List String) (out : String)
        (max_rows : Nat) (columns : List String), 0 < max_rows →
        (build_subset fs shard_paths out max_rows columns).rows_written ≤ max_rows ∧
        (outputRows (build_subset fs shard_paths out max_rows columns)).length ≤ max_rows) ∧
    (outputRows (build_subset fsC1 ["a.parquet", "b.parquet"] "out.parquet" 150 ["URL", "TEXT"])
        = List.range 100 ++ ((List.range 100).map (fun n => 100 + n)).take 50 ∧
      (build_subset fsC1 ["a.parquet", "b.parquet"] "out.parquet" 150
        ["URL", "TEXT"]).rows_written = 150) := by
  constructor
  · intro α fs shard_paths out max_rows columns hm
    have h₁ : (build_subset fs shard_paths out max_rows columns).rows_written ≤ max_rows :=
      buildLoop_rows_le fs out columns (Nat.pos_iff_ne_zero.mp hm) (sortPaths shard_paths)
        none 0 [] hm
    refine ⟨h₁, ?_⟩
    rw [outputRows_length]
    rw [show wRows (build_subset fs shard_paths out max_rows columns).writer
        = (build_subset fs shard_paths out max_rows columns).rows_written from
      buildLoop_wRows fs out max_rows columns (sortPaths shard_paths) none 0 [] rfl]
    exact h₁
  · exact ⟨by decide, by decide⟩

/-- Witness for C1 at a concrete input. -/
theorem claim_C1_witness :
    0 < 150 ∧
    (build_subset fsC1 ["a.parquet", "b.parquet"] "out.parquet" 150
      ["URL", "TEXT"]).rows_written ≤ 150 :=
  ⟨by decide,
    (claim_C1.1 Nat fsC1 ["a.parquet", "b.parquet"] "out.parquet" 150 ["URL", "TEXT"]
      (by decide)).1⟩

/-- C2: `build_subset` processes shards in ascending lexicographic order
of their path strings (the processed paths are a prefix of the sorted,
path-permutation-invariant list), so the result is identical for any
permutation of the same path list; for `["b.parquet","a.parquet"]` all of
`a.parquet`'s rows precede all of `b.parquet`'s rows. -/
theorem claim_C2 :
    (∀ (α : Type) (fs : String → ShardFile α) (p₁ p₂ : List String) (out : String)
        (max_rows : Nat) (columns : List String), List.Perm p₁ p₂ →
        build_subset fs p₁ out max_rows columns = build_subset fs p₂ out max_rows columns) ∧
    (∀ (α : Type) (fs : String → ShardFile α) (shard_paths : List String) (out : String)
        (max_rows : Nat) (columns : List String),
        List.Sorted PathLe (sortPaths shard_paths) ∧
        List.Perm (sortPaths shard_paths) shard_paths ∧
        ∃ rest, sortPaths shard_paths
          = (build_subset fs shard_paths out max_rows columns).readPaths ++ rest) ∧
    outputRows (build_subset fsAB ["b.parquet", "a.parquet"] "out.parquet" 0 ["URL", "TEXT"])
      = [0, 1, 2, 3] := by
  refine ⟨?_, ?_, by decide⟩
  · intro α fs p₁ p₂ out max_rows columns h
    unfold build_subset
    rw [sortPaths_eq_of_perm h]
  · intro α fs shard_paths out max_rows columns
    refine ⟨sortPaths_sorted shard_paths, sortPaths_perm shard_paths, ?_⟩
    obtain ⟨pre, rest, heq, hrp⟩ :=
      buildLoop_readPaths fs out max_rows columns (sortPaths shard_paths) none 0 []
    refine ⟨rest, ?_⟩
    simp only [build_subset]
    rw [hrp]
    simpa using heq

/-- Witness for C2 at a concrete permutation. -/
theorem claim_C2_witness :
    build_subset fsAB ["b.parquet", "a.parquet"] "out.parquet" 0 ["URL", "TEXT"]
      = build_subset fsAB ["a.parquet", "b.parquet"] "out.parquet" 0 ["URL", "TEXT"] :=
  claim_C2.1 Nat fsAB ["b.parquet", "a.parquet"] ["a.parquet", "b.parquet"] "out.parquet" 0
    ["URL", "TEXT"] (List.Perm.swap "a.parquet" "b.parquet" [])

/-- C3: per requested column the resolution precedence is: exact
(case-sensitive) match, else lowercase match, else the `TEXT → caption`
special case, else the column contributes nothing; for a shard with
columns `{url, caption}` and request `["URL","TEXT"]` the resolved list
is `["url","caption"]`. -/
theorem claim_C3 :
    (∀ (c : String) (cs available : List String), c ∈ available →
        resolveCols (c :: cs) available = c :: resolveCols cs available) ∧
    (∀ (c : String) (cs available : List String), c ∉ available → strLower c ∈ available →
        resolveCols (c :: cs) available = strLower c :: resolveCols cs available) ∧
    (∀ (c : String) (cs available : List String), c ∉ available → strLower c ∉ available →
        strUpper c = "TEXT" → "caption" ∈ available →
        resolveCols (c :: cs) available = "caption" :: resolveCols cs available) ∧
    (∀ (c : String) (cs available : List String), c ∉ available → strLower c ∉ available →
        ¬(strUpper c = "TEXT" ∧ "caption" ∈ available) →
        resolveCols (c :: cs) available = resolveCols cs available) ∧
    resolveCols ["URL", "TEXT"] ["url", "caption"] = ["url", "caption"] := by
  refine ⟨?_, ?_, ?_, ?_, by decide⟩
  · intro c cs available h₁
    rw [resolveCols_cons]
    simp [resolveOne, h₁]
  · intro c cs available h₁ h₂
    rw [resolveCols_cons]
    simp [resolveOne, h₁, h₂]
  · intro c cs available h₁ h₂ h₃ h₄
    rw [resolveCols_cons]
    simp [resolveOne, h₁, h₂, h₃, h₄]
  · intro c cs available h₁ h₂ h₃
    rw [resolveCols_cons]
    simp [resolveOne, h₁, h₂, h₃]

/-- Witness for C3: each precedence rule applied at a concrete input. -/
theorem claim_C3_witness :
    resolveCols ["caption"] ["caption"] = ["caption"] ∧
    resolveCols ["URL"] ["url", "caption"] = ["url"] ∧
    resolveCols ["TEXT"] ["url", "caption"] = ["caption"] ∧
    resolveCols ["WIDTH"] ["url", "caption"] = [] :=
  ⟨claim_C3.1 "caption" [] ["caption"] (by decide),
    claim_C3.2.1 "URL" [] ["url", "caption"] (by decide) (by decide),
    claim_C3.2.2.1 "TEXT" [] ["url", "caption"] (by decide) (by decide) (by decide) (by decide),
    claim_C3.2.2.2.1 "WIDTH" [] ["url", "caption"] (by decide) (by decide) (by decide)⟩

/-- C4: `build_subset` raises a resolution error iff some processed shard
resolves zero requested columns; the error carries the requested columns
and the shard's (sorted, de-duplicated) available names, and the run
aborts at that shard: the processed paths end at the erroring path and
form a prefix of the sorted path list.  A shard resolving only some
columns does not raise (it satisfies `resolveCols ≠ []`). -/
theorem claim_C4 :
    ∀ (α : Type) (fs : String → ShardFile α) (shard_paths : List String) (out : String)
      (max_rows : Nat) (columns : List String),
      ((build_subset fs shard_paths out max_rows columns).error.isSome = true ↔
        ∃ p ∈ (build_subset fs shard_paths out max_rows columns).readPaths,
          resolveCols columns (fs p).names = []) ∧
      (∀ e, (build_subset fs shard_paths out max_rows columns).error = some e →
        e.requested = columns ∧ e.available = sortedSet (fs e.path).names ∧
        resolveCols columns (fs e.path).names = [] ∧
        (∃ l, (build_subset fs shard_paths out max_rows columns).readPaths = l ++ [e.path]) ∧
        (∃ rest, sortPaths shard_paths
          = (build_subset fs shard_paths out max_rows columns).readPaths ++ rest)) := by
  intro α fs shard_paths out max_rows columns
  simp only [build_subset]
  constructor
  · constructor
    · intro h
      obtain ⟨e, he⟩ := Option.isSome_iff_exists.mp h
      obtain ⟨_, _, hres, l, hrp⟩ :=
        buildLoop_error_some fs out max_rows columns (sortPaths shard_paths) none 0 [] e he
      refine ⟨e.path, ?_, hres⟩
      rw [hrp]
      simp
    · rintro ⟨p, hp, hres⟩
      by_contra hns
      have herr := Option.not_isSome_iff_eq_none.mp hns
      exact buildLoop_resolve_of_error_none fs out max_rows columns (sortPaths shard_paths)
        none 0 [] (by intro q hq; cases hq) herr p hp hres
  · intro e he
    obtain ⟨hreq, hav, hres, l, hrp⟩ :=
      buildLoop_error_some fs out max_rows columns (sortPaths shard_paths) none 0 [] e he
    obtain ⟨pre, rest, heq, hrp₂⟩ :=
      buildLoop_readPaths fs out max_rows columns (sortPaths shard_paths) none 0 []
    refine ⟨hreq, hav, hres, ⟨l, hrp⟩, rest, ?_⟩
    rw [hrp₂]
    simpa using heq

/-- Witness for C4: a shard with no resolvable column makes the error
present. -/
theorem claim_C4_witness :
    (build_subset fsBad ["a.parquet", "b.parquet"] "out.parquet" 0 ["URL"]).error.isSome
      = true :=
  (claim_C4 Nat fsBad ["a.parquet", "b.parquet"] "out.parquet" 0 ["URL"]).1.mpr
    ⟨"b.parquet", by decide, by decide⟩

/-- C5 (counterexample to the claim as stated): on the resolution-failure
exit path the already-opened writer is NOT closed — there is no
`try/finally` around the loop, and `writer.close()` on line 88 is only
reached on normal completion.  Here the second shard fails resolution
after the first was written, the error is raised, and the final writer
state still has `closed = false`. -/
theorem claim_C5_counterexample :
    (build_subset fsBad ["a.parquet", "b.parquet"] "out.parquet" 0 ["URL"]).error.isSome
        = true ∧
      (build_subset fsBad ["a.parquet", "b.parquet"] "out.parquet" 0
        ["URL"]).writer.map Writer.closed = some false := by
  decide

/-- C5 (amended): the writer, when it was opened, is flushed and closed on
every *normal-completion* exit path (input exhausted or row cap reached);
on the resolution-failure exit path the error propagates with the writer
left open. -/
theorem claim_C5 :
    ∀ (α : Type) (fs : String → ShardFile α) (shard_paths : List String) (out : String)
      (max_rows : Nat) (columns : List String),
      ((build_subset fs shard_paths out max_rows columns).error = none →
        ∀ w, (build_subset fs shard_paths out max_rows columns).writer = some w →
          w.closed = true) ∧
      ((build_subset fs shard_paths out max_rows columns).error ≠ none →
        ∀ w, (build_subset fs shard_paths out max_rows columns).writer = some w →
          w.closed = false) := by
  intro α fs shard_paths out max_rows columns
  simp only [build_subset]
  have h := buildLoop_closed fs out max_rows columns (sortPaths shard_paths) none 0 []
    (by intro w' hw'; cases hw')
  exact ⟨fun herr w hw => h.1 w herr hw, fun herr w hw => h.2 w herr hw⟩

/-- Witness for C5 (amended) at a concrete normal run. -/
theorem claim_C5_witness :
    (build_subset fsAB ["a.parquet", "b.parquet"] "out.parquet" 0 ["URL", "TEXT"]).error
        = none ∧
      wC5.closed = true :=
  ⟨by decide,
    (claim_C5 Nat fsAB ["a.parquet", "b.parquet"] "out.parquet" 0 ["URL", "TEXT"]).1
      (by decide) wC5 (by decide)⟩

/-- C6: `build_subset` on an empty shard list returns with no error, no
writer (hence no output file), zero rows and the "no data written"
message; in general the writer (output file plus parent directory) exists
iff some processed shard resolved at least one column, i.e. it is created
only on the first successful resolution and write. -/
theorem claim_C6 :
    ∀ (α : Type) (fs : String → ShardFile α) (out : String) (max_rows : Nat)
      (columns : List String),
      (build_subset fs [] out max_rows columns
        = { error := none, writer := none, rows_written := 0, readPaths := [],
            finalMsg := some "No data written (no shards?)" }) ∧
      ∀ shard_paths,
        ((build_subset fs shard_paths out max_rows columns).writer.isSome = true ↔
          ∃ p ∈ (build_subset fs shard_paths out max_rows columns).readPaths,
            resolveCols columns (fs p).names ≠ []) := by
  intro α fs out max_rows columns
  refine ⟨rfl, ?_⟩
  intro shard_paths
  simp only [build_subset]
  constructor
  · intro h
    rcases buildLoop_writer_cause fs out max_rows columns (sortPaths shard_paths)
        none 0 [] h with h' | h'
    · cases h'
    · exact h'
  · intro h
    exact buildLoop_writer_of_resolve fs out max_rows columns (sortPaths shard_paths)
      none 0 [] (by rintro ⟨p, hp, -⟩; cases hp) h

/-- Witness for C6: one resolvable shard makes the writer exist. -/
theorem claim_C6_witness :
    (build_subset fsAB ["a.parquet"] "out.parquet" 0 ["URL"]).writer.isSome = true :=
  ((claim_C6 Nat fsAB "out.parquet" 0 ["URL"]).2 ["a.parquet"]).mpr
    ⟨"a.parquet", by decide, by decide⟩

/-- C7: with `max_rows = 0` there is no truncation and no early stop:
every shard in sorted order is read, each must resolve at least one
column, and the output row count is the sum of all shards' row counts. -/
theorem claim_C7 :
    ∀ (α : Type) (fs : String → ShardFile α) (shard_paths : List String) (out : String)
      (columns : List String),
      (∀ p ∈ shard_paths, resolveCols columns (fs p).names ≠ []) →
      (build_subset fs shard_paths out 0 columns).error = none ∧
      (build_subset fs shard_paths out 0 columns).readPaths = sortPaths shard_paths ∧
      (build_subset fs shard_paths out 0 columns).rows_written
        = (shard_paths.map (fun p => (fs p).rows.length)).sum ∧
      (outputRows (build_subset fs shard_paths out 0 columns)).length
        = (build_subset fs shard_paths out 0 columns).rows_written := by
  intro α fs shard_paths out columns hall
  have hall' : ∀ p ∈ sortPaths shard_paths, resolveCols columns (fs p).names ≠ [] :=
    fun p hp => hall p (((sortPaths_perm shard_paths).mem_iff).mp hp)
  have herr : (build_subset fs shard_paths out 0 columns).error = none :=
    buildLoop_error_none fs out 0 columns (sortPaths shard_paths) none 0 [] hall'
  refine ⟨herr, ?_, ?_, ?_⟩
  · have h := buildLoop_complete fs out 0 columns (sortPaths shard_paths) none 0 []
      herr (Or.inl rfl)
    simpa [build_subset] using h
  · have h := buildLoop_unbounded fs out columns (sortPaths shard_paths) none 0 [] hall'
    simp only [build_subset, h, Nat.zero_add]
    exact ((sortPaths_perm shard_paths).map (fun p => (fs p).rows.length)).sum_eq
  · rw [outputRows_length]
    exact buildLoop_wRows fs out 0 columns (sortPaths shard_paths) none 0 [] rfl

/-- Witness for C7 at a concrete input. -/
theorem claim_C7_witness :
    (build_subset fsAB ["b.parquet", "a.parquet"] "out.parquet" 0 ["URL", "TEXT"]).error
        = none ∧
      (build_subset fsAB ["b.parquet", "a.parquet"] "out.parquet" 0
          ["URL", "TEXT"]).rows_written
        = (["b.parquet", "a.parquet"].map (fun p => (fsAB p).rows.length)).sum :=
  ⟨(claim_C7 Nat fsAB ["b.parquet", "a.parquet"] "out.parquet" ["URL", "TEXT"]
      (by decide)).1,
    (claim_C7 Nat fsAB ["b.parquet", "a.parquet"] "out.parquet" ["URL", "TEXT"]
      (by decide)).2.2.1⟩

/-- C8: the processed paths always form a prefix of the sorted path list;
on normal completion the loop either consumed every sorted path (always
the case when `max_rows = 0` or the cap was not reached) or stopped with
exactly `max_rows` rows written; concretely, with a positive cap reached
at the second of three shards, the third — whose schema would fail
resolution — is never read and no error is raised. -/
theorem claim_C8 :
    (∀ (α : Type) (fs : String → ShardFile α) (shard_paths : List String) (out : String)
        (max_rows : Nat) (columns : List String),
        (∃ rest, sortPaths shard_paths
          = (build_subset fs shard_paths out max_rows columns).readPaths ++ rest) ∧
        ((build_subset fs shard_paths out max_rows columns).error = none →
          (max_rows = 0 ∨
              (build_subset fs shard_paths out max_rows columns).rows_written < max_rows) →
          (build_subset fs shard_paths out max_rows columns).readPaths
            = sortPaths shard_paths) ∧
        ((build_subset fs shard_paths out max_rows columns).error = none → max_rows ≠ 0 →
          (build_subset fs shard_paths out max_rows columns).readPaths
              = sortPaths shard_paths ∨
            (build_subset fs shard_paths out max_rows columns).rows_written = max_rows)) ∧
    ((build_subset fsC8 ["a.parquet", "b.parquet", "c.parquet"] "out.parquet" 3
          ["URL"]).error = none ∧
      (build_subset fsC8 ["a.parquet", "b.parquet", "c.parquet"] "out.parquet" 3
          ["URL"]).rows_written = 3 ∧
      (build_subset fsC8 ["a.parquet", "b.parquet", "c.parquet"] "out.parquet" 3
          ["URL"]).readPaths = ["a.parquet", "b.parquet"] ∧
      "c.parquet" ∉ (build_subset fsC8 ["a.parquet", "b.parquet", "c.parquet"] "out.parquet"
          3 ["URL"]).readPaths ∧
      resolveCols ["URL"] (fsC8 "c.parquet").names = [] ∧
      outputRows (build_subset fsC8 ["a.parquet", "b.parquet", "c.parquet"] "out.parquet" 3
          ["URL"]) = [0, 1, 2]) := by
  constructor
  · intro α fs shard_paths out max_rows columns
    refine ⟨?_, ?_, ?_⟩
    · obtain ⟨pre, rest, heq, hrp⟩ :=
        buildLoop_readPaths fs out max_rows columns (sortPaths shard_paths) none 0 []
      refine ⟨rest, ?_⟩
      simp only [build_subset]
      rw [hrp]
      simpa using heq
    · intro herr hlt
      have h := buildLoop_complete fs out max_rows columns (sortPaths shard_paths)
        none 0 [] herr hlt
      simpa [build_subset] using h
    · intro herr hm
      by_cases hlt :
        (build_subset fs shard_paths out max_rows columns).rows_written < max_rows
      · refine Or.inl ?_
        have h := buildLoop_complete fs out max_rows columns (sortPaths shard_paths)
          none 0 [] herr (Or.inr hlt)
        simpa [build_subset] using h
      · refine Or.inr (le_antisymm ?_ (not_lt.mp hlt))
        exact buildLoop_rows_le fs out columns hm (sortPaths shard_paths) none 0 []
          (Nat.pos_of_ne_zero hm)
  · exact ⟨by decide, by decide, by decide, by decide, by decide, by decide⟩

/-- Witness for C8: full consumption at cap 0 on a concrete input. -/
theorem claim_C8_witness :
    (build_subset fsAB ["b.parquet", "a.parquet"] "out.parquet" 0 ["URL", "TEXT"]).readPaths
      = sortPaths ["b.parquet", "a.parquet"] :=
  (claim_C8.1 Nat fsAB ["b.parquet", "a.parquet"] "out.parquet" 0 ["URL", "TEXT"]).2.1
    (by decide) (Or.inl rfl)

/-- C9: the output schema is the column list of the first written batch,
and later shards are appended under their own resolved projection with no
cross-shard check: two shards resolving the same request `["URL"]` to
different actual names (`URL`, then `url`) are both appended with no
error. -/
theorem claim_C9 :
    (∀ (α : Type) (fs : String → ShardFile α) (shard_paths : List String) (out : String)
        (max_rows : Nat) (columns : List String) (w : Writer α),
        (build_subset fs shard_paths out max_rows columns).writer = some w →
        ∃ b bs, w.batches = b :: bs ∧ w.schema = b.cols) ∧
    ((build_subset fsC9 ["a.parquet", "b.parquet"] "out.parquet" 0 ["URL"]).error = none ∧
      (build_subset fsC9 ["a.parquet", "b.parquet"] "out.parquet" 0 ["URL"]).writer
        = some wC9) := by
  constructor
  · intro α fs shard_paths out max_rows columns w hw
    exact buildLoop_schema fs out max_rows columns (sortPaths shard_paths) none 0 []
      (by intro w' hw'; cases hw') w hw
  · exact ⟨by decide, by decide⟩

/-- Witness for C9: the schema-equals-first-batch property at a concrete
writer. -/
theorem claim_C9_witness :
    ∃ b bs, wC9.batches = b :: bs ∧ wC9.schema = b.cols :=
  claim_C9.1 Nat fsC9 ["a.parquet", "b.parquet"] "out.parquet" 0 ["URL"] wC9 (by decide)

/-- C10 (implicit): with an empty requested column list, any non-empty
shard list raises a resolution failure at the first path-sorted shard —
whatever its schema — so no writer is ever opened and only that first
shard is read. -/
theorem claim_C10 :
    ∀ (α : Type) (fs : String → ShardFile α) (shard_paths : List String) (out : String)
      (max_rows : Nat), shard_paths ≠ [] →
      ∃ p rest, sortPaths shard_paths = p :: rest ∧
        (build_subset fs shard_paths out max_rows []).error
          = some { requested := [], path := p, available := sortedSet (fs p).names } ∧
        (build_subset fs shard_paths out max_rows []).writer = none ∧
        (build_subset fs shard_paths out max_rows []).readPaths = [p] := by
  intro α fs shard_paths out max_rows hne
  cases hsp : sortPaths shard_paths with
  | nil =>
    exact absurd (((sortPaths_perm shard_paths).symm.trans (hsp ▸ List.Perm.refl _)).symm.nil_eq.symm) hne
  | cons p rest =>
    refine ⟨p, rest, rfl, ?_, ?_, ?_⟩
    · simp only [build_subset, hsp, buildLoop]
      rw [if_pos (show resolveCols [] (fs p).names = [] from rfl)]
    · simp only [build_subset, hsp, buildLoop]
      rw [if_pos (show resolveCols [] (fs p).names = [] from rfl)]
    · simp only [build_subset, hsp, buildLoop]
      rw [if_pos (show resolveCols [] (fs p).names = [] from rfl)]
      simp

/-- Witness for C10 at a concrete input. -/
theorem claim_C10_witness :
    ∃ p rest, sortPaths ["a.parquet"] = p :: rest ∧
      (build_subset fsAB ["a.parquet"] "out.parquet" 0 []).error
        = some { requested := [], path := p, available := sortedSet (fsAB p).names } ∧
      (build_subset fsAB ["a.parquet"] "out.parquet" 0 []).writer = none ∧
      (build_subset fsAB ["a.parquet"] "out.parquet" 0 []).readPaths = [p] :=
  claim_C10 Nat fsAB ["a.parquet"] "out.parquet" 0 (by decide)

end LaionPrepare
